import Mathlib

/-!
Verification of the Opt-Out Automation Engine core against its specification.

This file is a shallow embedding, in Lean 4, of the Rust sources under
src-tauri/src of the opt-outta application: the data model (models.rs), the
playbook validator (playbook_validation.rs), the playbook verifier
(playbook_verification.rs), PII resolution (browser.rs), the crypto envelope
(crypto.rs), the history store (history.rs) and the per-broker body of the
run engine (engine.rs).

Conventions of the embedding:
* Rust String values are Lean String values; Rust byte-length str::len is
  String.utf8ByteSize.  Rust char-level operations (to_lowercase, trim_start,
  split, contains, starts_with, ends_with) are modelled on the underlying
  character list; for the ASCII data handled here Lean Char.toLower and
  Char.isWhitespace coincide with the Rust operations.
* Byte strings are List Nat with every element below 256.
* chrono DateTime values are Int timestamps (seconds); chrono
  Duration::days d is exactly d * 86400 of these units.
* Fallible Rust functions returning Result are Except; Option stays Option.
* External cryptographic primitives (Ed25519 verify, AES-256-GCM) are
  parameters of the functions that call them; everything the repository
  itself computes around them (canonicalization, base64 envelope, length
  checks, error routing) is embedded concretely.
* I/O performed by the engine (browser calls, the clock, uuid generation,
  the cancellation channel) is supplied through explicit oracle records, so
  the engine body becomes a pure function from the oracle to its event trace
  and its outcome.
-/

/-! ### Character-list string primitives

These model the Rust str operations used by the validator.  They operate on
String.data so that every definition computes by structural recursion. -/

/-- Rust str::contains with a string pattern: true when the needle occurs as
a contiguous subsequence.  An empty needle always matches. -/
def hasSub (needle : List Char) : List Char → Bool
  | [] => needle.isEmpty
  | c :: rest => needle.isPrefixOf (c :: rest) || hasSub needle rest

/-- Rust str::split on a single separator char: the list of (possibly empty)
segments between separators.  Always returns at least one segment. -/
def splitChar (sep : Char) : List Char → List (List Char)
  | [] => [[]]
  | c :: rest =>
    match splitChar sep rest with
    | [] => if c = sep then [[], []] else [[c]]
    | g :: gs => if c = sep then [] :: g :: gs else (c :: g) :: gs

/-- Rust iterator.next().unwrap_or("") over str::split: the first segment. -/
def firstSegment (sep : Char) (cs : List Char) : List Char :=
  (splitChar sep cs).headD []

/-- Rust str::to_lowercase (ASCII-faithful). -/
def lowerChars (cs : List Char) : List Char := cs.map Char.toLower

/-- Rust str::trim_start (ASCII-faithful whitespace class). -/
def trimStartChars (cs : List Char) : List Char := cs.dropWhile Char.isWhitespace

/-! ### Data model (models.rs) -/

/-- models.rs PlaybookStep. -/
structure PlaybookStep where
  position : Nat
  action : String
  selector : Option String
  profile_key : Option String
  value : Option String
  description : String
  instructions : Option String
  wait_after_ms : Nat
  optional : Bool
deriving DecidableEq

/-- models.rs Playbook (the fields the engine core reads). -/
structure Playbook where
  id : String
  broker_id : String
  broker_name : String
  version : Nat
  status : String
  steps : List PlaybookStep
  signature : Option String
deriving DecidableEq

/-- models.rs Broker (the fields the engine core reads). -/
structure Broker where
  id : String
  name : String
  opt_out_url : String
  requires_verification : Option String
  relist_days : Option Nat
deriving DecidableEq

/-- models.rs PreviousAddress. -/
structure PreviousAddress where
  address : String
  city : String
  state : String
  zip : String
deriving DecidableEq

/-- models.rs Profile. -/
structure Profile where
  first_name : String
  last_name : String
  email : String
  phone : String
  address : String
  city : String
  state : String
  zip : String
  dob : String
  alternate_emails : List String
  alternate_phones : List String
  previous_addresses : List PreviousAddress
deriving DecidableEq

/-- models.rs BrokerSubmissionStatus. -/
inductive BrokerSubmissionStatus where
  | submitted
  | pendingVerification
  | confirmed
  | failed
  | reListed
deriving DecidableEq

/-- models.rs SubmissionRecord, with timestamps as Int seconds. -/
structure SubmissionRecord where
  id : String
  broker_id : String
  status : BrokerSubmissionStatus
  submitted_at : Int
  confirmed_at : Option Int
  next_check_date : Option Int
  error_message : Option String
  run_id : String
deriving DecidableEq

/-- models.rs FormAction. -/
inductive FormAction where
  | Fill (selector : String) (profile_key : Option String) (value : Option String)
      (transform : Option String)
  | Select (selector : String) (value : String)
  | Check (selector : String) (checked : Bool)
  | Click (selector : String)
  | Wait (milliseconds : Nat)
  | Captcha (message : Option String)
  | Navigate (url : String)
  | WaitFor (selector : String) (timeout_ms : Option Nat)
  | ScrollTo (selector : String)
  | FindAndClick (selector : String) (profile_key : String)
  | Done (message : Option String)
  | UserPrompt (message : String)
  | ManualFill (selector : String) (message : String)
  | ManualSelect (selector : String) (message : String)
  | Error (message : String)
deriving DecidableEq

/-! ### Playbook validator (playbook_validation.rs)

Error messages are kept to the fixed sentence of the corresponding Rust
format string; the interpolated context and offending fragment are dropped,
since every claim depends only on which branch produced the error. -/

def MAX_STEPS : Nat := 100
def MAX_SELECTOR_LEN : Nat := 500
def MAX_VALUE_LEN : Nat := 2000
def MAX_DESCRIPTION_LEN : Nat := 500
def MAX_INSTRUCTIONS_LEN : Nat := 2000
def MAX_WAIT_MS : Nat := 30000

def ALLOWED_ACTIONS : List String :=
  ["navigate", "fill", "select", "check", "click", "wait", "wait_for",
   "scroll_to", "find_and_click", "captcha", "user_prompt", "done"]

def ALLOWED_PROFILE_KEYS : List String :=
  ["firstName", "lastName", "email", "phone", "address", "city", "state",
   "zip", "dob", "fullName"]

def BLOCKED_URL_SCHEMES : List String :=
  ["javascript:", "data:", "file:", "blob:", "vbscript:", "about:",
   "chrome:", "chrome-extension:"]

def BLOCKED_SELECTOR_PATTERNS : List String :=
  ["javascript:", "<script", "onerror", "onload", "onclick", "onmouseover",
   "onfocus", "onblur", "onchange", "oninput", "onsubmit", "onkeydown",
   "onkeyup", "onkeypress", "onmousedown", "onmouseup", "ondblclick",
   "oncontextmenu", "expression(", "url(", "import("]

def validate_selector (sel : String) : Except String Unit :=
  if sel.data.isEmpty then .error "Selector is empty."
  else if sel.utf8ByteSize > MAX_SELECTOR_LEN then .error "Selector too long."
  else
    let lower := lowerChars sel.data
    if BLOCKED_SELECTOR_PATTERNS.any (fun pat => hasSub pat.data lower) then
      .error "Selector contains blocked pattern."
    else .ok ()

def validate_value (val : String) (action : String) : Except String Unit :=
  if val.utf8ByteSize > MAX_VALUE_LEN then .error "Value too long."
  else if action = "navigate" then .ok ()
  else
    let lower := lowerChars val.data
    if hasSub "<script".data lower || hasSub "javascript:".data lower then
      .error "Value contains blocked content."
    else .ok ()

def validate_navigate_step (step : PlaybookStep) : Except String Unit :=
  match step.value with
  | none => .error "Navigate step requires a URL value."
  | some url =>
    if url.data.isEmpty then .error "Navigate URL is empty."
    else
      let lower := trimStartChars (lowerChars url.data)
      if BLOCKED_URL_SCHEMES.any (fun scheme => scheme.data.isPrefixOf lower) then
        .error "Navigate URL uses blocked scheme."
      else if !("http://".data.isPrefixOf lower) && !("https://".data.isPrefixOf lower) then
        .error "Navigate URL must start with http or https."
      else
        let after_scheme :=
          if "https://".data.isPrefixOf lower then lower.drop 8 else lower.drop 7
        let host := firstSegment '/' after_scheme
        let host_no_port := firstSegment ':' host
        if host_no_port = "localhost".data
            || host_no_port = "127.0.0.1".data
            || host_no_port = "0.0.0.0".data
            || host_no_port = "[::1]".data
            || "192.168.".data.isPrefixOf host_no_port
            || "10.".data.isPrefixOf host_no_port
            || "172.16.".data.isPrefixOf host_no_port
            || ".local".data.isSuffixOf host_no_port then
          .error "Navigate URL points to a local or internal address."
        else .ok ()

def validate_requires_selector (step : PlaybookStep) : Except String Unit :=
  if step.selector = none || step.selector = some "" then
    .error "Step requires a selector."
  else .ok ()

def validate_fill_step (step : PlaybookStep) : Except String Unit :=
  validate_requires_selector step

def validate_select_step (step : PlaybookStep) : Except String Unit :=
  validate_requires_selector step

def validate_wait_step (step : PlaybookStep) : Except String Unit :=
  match step.value with
  | none => .ok ()
  | some val =>
    match val.toNat? with
    | none => .ok ()
    | some ms => if ms > MAX_WAIT_MS then .error "Wait value too large." else .ok ()

def validate_step (step : PlaybookStep) : Except String Unit := do
  if !(ALLOWED_ACTIONS.contains step.action) then
    throw "Unknown action."
  match step.selector with
  | some sel => validate_selector sel
  | none => pure ()
  match step.value with
  | some val => validate_value val step.action
  | none => pure ()
  if step.description.utf8ByteSize > MAX_DESCRIPTION_LEN then
    throw "Description too long."
  match step.instructions with
  | some ins =>
    if ins.utf8ByteSize > MAX_INSTRUCTIONS_LEN then
      throw "Instructions too long."
  | none => pure ()
  match step.profile_key with
  | some key =>
    if !(ALLOWED_PROFILE_KEYS.contains key) then
      throw "Unknown profile key."
  | none => pure ()
  if step.wait_after_ms > MAX_WAIT_MS then
    throw "wait_after_ms too large."
  match step.action with
  | "navigate" => validate_navigate_step step
  | "fill" => validate_fill_step step
  | "select" => validate_select_step step
  | "click" => validate_requires_selector step
  | "check" => validate_requires_selector step
  | "scroll_to" => validate_requires_selector step
  | "find_and_click" => validate_requires_selector step
  | "wait_for" => validate_requires_selector step
  | "wait" => validate_wait_step step
  | _ => pure ()

def validateEach : List PlaybookStep → Except String Unit
  | [] => .ok ()
  | s :: rest =>
    match validate_step s with
    | .error e => .error e
    | .ok _ => validateEach rest

def validate_steps (steps : List PlaybookStep) : Except String Unit :=
  if steps.isEmpty then .error "Playbook must have at least one step."
  else if steps.length > MAX_STEPS then .error "Playbook has too many steps."
  else validateEach steps

/-! ### C3: what the validator accepts -/

/-- A navigate step whose URL has the IPv6 loopback host. -/
def c3Ipv6Step : PlaybookStep :=
  { position := 1, action := "navigate", selector := none, profile_key := none,
    value := some "http://[::1]/admin", description := "Go", instructions := none,
    wait_after_ms := 500, optional := false }

/-! ### PII resolution (browser.rs resolve_profile_key) -/

/-- The bare-key arm of resolve_profile_key: the match at the bottom of the
Rust function.  Note there is no arm for "fullName". -/
def resolveKey (profile : Profile) (key : String) : Option String :=
  match key with
  | "firstName" => some profile.first_name
  | "lastName" => some profile.last_name
  | "email" => some profile.email
  | "phone" => some profile.phone
  | "address" => some profile.address
  | "city" => some profile.city
  | "state" => some profile.state
  | "zip" => some profile.zip
  | "dob" => some profile.dob
  | _ => none

/-- browser.rs resolve_profile_key.  The Rust combine branch recursively
calls resolve_profile_key with transform None, which is exactly resolveKey,
so the recursion is inlined.  Dropping 8 characters removes the matched
combine marker, as the Rust strip call does. -/
def resolve_profile_key (profile : Profile) (key : String) (transform : Option String) :
    Option String :=
  match transform with
  | some ts =>
    if "combine:".data.isPrefixOf ts.data then
      let keys := (splitChar '+' (ts.data.drop 8)).map String.mk
      let parts := keys.filterMap (fun k => resolveKey profile k)
      if parts.isEmpty then none else some (String.intercalate " " parts)
    else resolveKey profile key
  | none => resolveKey profile key

/-- The value computed by the Fill arm of browser.rs execute_action before
it is written into the page. -/
def fill_resolved_value (p : Profile) (profile_key : Option String) (value : Option String)
    (transform : Option String) : Except String String :=
  match profile_key with
  | some pk =>
    match resolve_profile_key p pk transform with
    | some v => .ok v
    | none => .error ("Unknown profile key: " ++ pk)
  | none => .ok (value.getD "")

/-- The value computed by the FindAndClick arm of browser.rs execute_action
(transform is always None there). -/
def find_and_click_resolved_value (p : Profile) (profile_key : String) : Except String String :=
  match resolve_profile_key p profile_key none with
  | some v => .ok v
  | none => .error ("Unknown profile key: " ++ profile_key)

/-- Rust slice.join on char lists: segments glued with the separator. -/
def joinWithChar (sep : Char) : List (List Char) → List Char
  | [] => []
  | [k] => k
  | k :: k2 :: ks => k ++ sep :: joinWithChar sep (k2 :: ks)

/-! ### splitChar inverts joinWithChar when no segment holds the separator -/

theorem splitChar_ne_nil (sep : Char) (l : List Char) : splitChar sep l ≠ [] := by
  cases l with
  | nil => simp [splitChar]
  | cons c rest =>
    cases h : splitChar sep rest with
    | nil =>
      simp only [splitChar, h]
      split <;> simp
    | cons g gs =>
      simp only [splitChar, h]
      split <;> simp

theorem splitChar_of_not_mem (sep : Char) (k : List Char) (h : sep ∉ k) :
    splitChar sep k = [k] := by
  induction k with
  | nil => rfl
  | cons c rest ih =>
    have hc : c ≠ sep := fun hc => h (hc ▸ List.mem_cons_self c rest)
    have hr : sep ∉ rest := fun hr => h (List.mem_cons_of_mem c hr)
    simp [splitChar, ih hr, hc]

theorem splitChar_append (sep : Char) (k t : List Char) (h : sep ∉ k)
    (g : List Char) (gs : List (List Char)) (ht : splitChar sep t = g :: gs) :
    splitChar sep (k ++ t) = (k ++ g) :: gs := by
  induction k with
  | nil => simpa using ht
  | cons c rest ih =>
    have hc : c ≠ sep := fun hc => h (hc ▸ List.mem_cons_self c rest)
    have hr : sep ∉ rest := fun hr => h (List.mem_cons_of_mem c hr)
    simp [splitChar, ih hr, hc]

theorem splitChar_sep_cons (sep : Char) (t : List Char) :
    splitChar sep (sep :: t) = [] :: splitChar sep t := by
  simp only [splitChar]
  cases h : splitChar sep t with
  | nil => exact absurd h (splitChar_ne_nil sep t)
  | cons g gs => simp

theorem splitChar_joinWithChar (sep : Char) (ks : List (List Char)) (hne : ks ≠ [])
    (hsep : ∀ k ∈ ks, sep ∉ k) : splitChar sep (joinWithChar sep ks) = ks := by
  induction ks with
  | nil => exact absurd rfl hne
  | cons k rest ih =>
    cases rest with
    | nil =>
      exact splitChar_of_not_mem sep k (hsep k (List.mem_cons_self k []))
    | cons k2 ks2 =>
      have hk : sep ∉ k := hsep k (List.mem_cons_self k _)
      have hrest : splitChar sep (joinWithChar sep (k2 :: ks2)) = k2 :: ks2 :=
        ih (by simp) (fun x hx => hsep x (List.mem_cons_of_mem k hx))
      have hsepcons : splitChar sep (sep :: joinWithChar sep (k2 :: ks2)) =
          [] :: k2 :: ks2 := by
        rw [splitChar_sep_cons, hrest]
      have := splitChar_append sep k (sep :: joinWithChar sep (k2 :: ks2)) hk
        [] (k2 :: ks2) hsepcons
      simpa [joinWithChar] using this

/-! ### C4: the combine transform -/

/-- A sample profile used for concrete evaluations. -/
def sampleProfile : Profile :=
  { first_name := "Ada", last_name := "Lovelace", email := "ada@example.com",
    phone := "555-0100", address := "12 Engine St", city := "London",
    state := "LN", zip := "00001", dob := "1815-12-10",
    alternate_emails := [], alternate_phones := [], previous_addresses := [] }

/-- C4 counterexample: the claim says that when no combine component
resolves, the result is the empty string.  The code returns None (the
unresolved outcome) instead: the Fill executor then fails with an
unknown-profile-key error rather than filling an empty string. -/
theorem resolve_profile_key_combine_none_not_empty :
    resolve_profile_key sampleProfile "nope" (some "combine:nope") = none
      ∧ resolve_profile_key sampleProfile "nope" (some "combine:nope") ≠ some "" := by
  exact ⟨rfl, by decide⟩

/-- C4 (amended): resolving combine over keys k1..kn resolves each key
independently, drops the components that do not resolve, and joins the
remaining resolved values with a single space; when no component resolves
the result is None (unresolved), not the empty string. -/
theorem resolve_profile_key_combine (p : Profile) (key : String) (ks : List String)
    (hne : ks ≠ []) (hplus : ∀ k ∈ ks, '+' ∉ k.data) :
    resolve_profile_key p key
        (some (String.mk ("combine:".data ++ joinWithChar '+' (ks.map String.data)))) =
      (if ks.filterMap (fun k => resolveKey p k) = [] then none
       else some (String.intercalate " " (ks.filterMap (fun k => resolveKey p k)))) := by
  have hdata : (String.mk ("combine:".data ++ joinWithChar '+' (ks.map String.data))).data =
      "combine:".data ++ joinWithChar '+' (ks.map String.data) := rfl
  have hpre : "combine:".data.isPrefixOf
      ("combine:".data ++ joinWithChar '+' (ks.map String.data)) = true := by
    rw [List.isPrefixOf_iff_prefix]
    exact List.prefix_append _ _
  have hdrop : ("combine:".data ++ joinWithChar '+' (ks.map String.data)).drop 8 =
      joinWithChar '+' (ks.map String.data) := by
    have : ("combine:".data).length = 8 := by decide
    rw [← this, List.drop_left]
  have hsplit : splitChar '+' (joinWithChar '+' (ks.map String.data)) = ks.map String.data := by
    refine splitChar_joinWithChar '+' (ks.map String.data) (by simpa using hne) ?_
    intro k hk
    rcases List.mem_map.mp hk with ⟨s, hs, rfl⟩
    exact hplus s hs
  have hmk : (ks.map String.data).map String.mk = ks := by
    rw [List.map_map]
    exact List.map_id'' (fun s => by cases s; rfl) ks
  simp only [resolve_profile_key, hdata, hpre, if_true, hdrop, hsplit, hmk]
  rcases h : ks.filterMap (fun k => resolveKey p k) with _ | _ <;> simp [h]

/-- C4 witness: combine over firstName and lastName resolves to the two
fields joined by a single space. -/
theorem resolve_profile_key_combine_witness :
    resolve_profile_key sampleProfile "firstName"
        (some (String.mk ("combine:".data ++
          joinWithChar '+' (["firstName", "lastName"].map String.data)))) =
      some "Ada Lovelace" :=
  (resolve_profile_key_combine sampleProfile "firstName" ["firstName", "lastName"]
    (by decide) (by decide)).trans (by decide)

/-! ### C10: the fullName profile key -/

/-- A fill step carrying the fullName profile key. -/
def fullNameFillStep : PlaybookStep :=
  { position := 1, action := "fill", selector := some "#name",
    profile_key := some "fullName", value := none,
    description := "Enter full name", instructions := none,
    wait_after_ms := 500, optional := false }

/-- A find_and_click step carrying the fullName profile key. -/
def fullNameFindClickStep : PlaybookStep :=
  { position := 2, action := "find_and_click", selector := some ".result",
    profile_key := some "fullName", value := none,
    description := "Pick the matching profile", instructions := none,
    wait_after_ms := 500, optional := false }

/-- C10: fullName is in the validator allowlist and a fill or
find_and_click step using it passes validate_steps, yet PII resolution has
no arm for it, so for every profile the executor fails those steps with an
unknown-profile-key error. -/
theorem fullName_validates_but_never_resolves :
    "fullName" ∈ ALLOWED_PROFILE_KEYS
    ∧ validate_steps [fullNameFillStep, fullNameFindClickStep] = .ok ()
    ∧ (∀ p : Profile, resolve_profile_key p "fullName" none = none)
    ∧ (∀ (p : Profile) (v : Option String),
        fill_resolved_value p (some "fullName") v none =
          .error "Unknown profile key: fullName")
    ∧ (∀ p : Profile, find_and_click_resolved_value p "fullName" =
          .error "Unknown profile key: fullName") :=
  ⟨by decide, rfl, fun _ => rfl, fun _ _ => rfl, fun _ => rfl⟩

/-! ### Canonical JSON (playbook_verification.rs)

serde_json::to_string over the json! objects built by the verifier: keys in
alphabetical order (the serde_json map is ordered), no whitespace, strings
escaped exactly as serde_json does, missing optional fields as null, and a
final pass that escapes every forward slash as backslash-slash to match the
server-side encoder. -/

def lowHexDigit (n : Nat) : Char := "0123456789abcdef".data.getD n '0'

/-- serde_json string escaping for one character: quote and backslash get a
backslash escape, the five control characters with short forms get them,
any other control character becomes a lowercase four-digit unicode escape,
and everything else stands for itself. -/
def jsonEscapeChar (c : Char) : List Char :=
  let n := c.toNat
  if c = '"' then ['\\', '"']
  else if c = '\\' then ['\\', '\\']
  else if n = 8 then ['\\', 'b']
  else if n = 9 then ['\\', 't']
  else if n = 10 then ['\\', 'n']
  else if n = 12 then ['\\', 'f']
  else if n = 13 then ['\\', 'r']
  else if n < 32 then
    '\\' :: 'u' :: '0' :: '0' :: lowHexDigit (n / 16) :: [lowHexDigit (n % 16)]
  else [c]

def jsonString (s : String) : String :=
  "\"" ++ String.mk (s.data.flatMap jsonEscapeChar) ++ "\""

def jsonOpt : Option String → String
  | none => "null"
  | some s => jsonString s

/-- The canonical object the verifier emits for one step: exactly nine keys
in alphabetical order. -/
def canonical_step_json (s : PlaybookStep) : String :=
  "\x7b\"action\":" ++ jsonString s.action
    ++ ",\"description\":" ++ jsonString s.description
    ++ ",\"instructions\":" ++ jsonOpt s.instructions
    ++ ",\"optional\":" ++ (if s.optional then "true" else "false")
    ++ ",\"position\":" ++ toString s.position
    ++ ",\"profile_key\":" ++ jsonOpt s.profile_key
    ++ ",\"selector\":" ++ jsonOpt s.selector
    ++ ",\"value\":" ++ jsonOpt s.value
    ++ ",\"wait_after_ms\":" ++ toString s.wait_after_ms
    ++ "\x7d"

/-- The stable sort by position: Rust sort_by_key is a stable sort, and a
stable sort is uniquely determined by its specification, so the Mathlib
insertion sort (which is stable) is an exact model. -/
def sortStepsByPosition (steps : List PlaybookStep) : List PlaybookStep :=
  List.insertionSort (fun a b => a.position ≤ b.position) steps

/-- Replace every forward slash by backslash-slash, as the verifier does on
the whole serialized array (slashes only occur inside JSON strings). -/
def escapeSlashes (cs : List Char) : List Char :=
  cs.flatMap (fun c => if c = '/' then ['\\', '/'] else [c])

/-- The canonical JSON byte string the verifier signs: steps sorted by
position, serialized without whitespace, slashes escaped. -/
def canonical_json (steps : List PlaybookStep) : String :=
  String.mk (escapeSlashes
    ("[" ++ String.intercalate "," ((sortStepsByPosition steps).map canonical_step_json)
      ++ "]").data)

/-! ### C5: permutation invariance of the canonical JSON -/

/-- Two sorted permutations of each other are equal when the sort keys are
pairwise distinct. -/
theorem sorted_perm_eq_of_nodup_key {α : Type} (key : α → Nat) :
    ∀ (l₁ l₂ : List α), l₁.Perm l₂ →
      l₁.Sorted (fun a b => key a ≤ key b) →
      l₂.Sorted (fun a b => key a ≤ key b) →
      (l₁.map key).Nodup → l₁ = l₂
  | [], l₂, hperm, _, _, _ => hperm.nil_eq
  | x :: xs, [], hperm, _, _, _ => by simpa using hperm.length_eq
  | x :: xs, y :: ys, hperm, hs₁, hs₂, hnd => by
    by_cases hxy : x = y
    · subst hxy
      have htail := hperm.cons_inv
      have hnd' : (xs.map key).Nodup := by
        rw [List.map_cons] at hnd
        exact hnd.of_cons
      have := sorted_perm_eq_of_nodup_key key xs ys htail hs₁.of_cons hs₂.of_cons hnd'
      rw [this]
    · exfalso
      have hy : y ∈ xs := by
        have : y ∈ x :: xs := hperm.symm.subset (List.mem_cons_self y ys)
        rcases List.mem_cons.mp this with h | h
        · exact absurd h.symm hxy
        · exact h
      have hx : x ∈ ys := by
        have : x ∈ y :: ys := hperm.subset (List.mem_cons_self x xs)
        rcases List.mem_cons.mp this with h | h
        · exact absurd h hxy
        · exact h
      have h₁ : key x ≤ key y := (List.sorted_cons.mp hs₁).1 y hy
      have h₂ : key y ≤ key x := (List.sorted_cons.mp hs₂).1 x hx
      have hkey : key x = key y := Nat.le_antisymm h₁ h₂
      have hnotin : key x ∉ (xs.map key) := by
        rw [List.map_cons] at hnd
        exact (List.nodup_cons.mp hnd).1
      exact hnotin (hkey ▸ List.mem_map_of_mem key hy)

/-- C5 (amended): the canonical JSON is invariant under any permutation of
the input step order provided the positions are pairwise distinct.  (The
sort is stable by position, so duplicate positions keep input order and the
unamended claim fails; see the counterexample.) -/
theorem canonical_json_perm_invariant (S T : List PlaybookStep)
    (hperm : S.Perm T) (hnodup : (S.map (fun s => s.position)).Nodup) :
    canonical_json T = canonical_json S := by
  letI hr : IsTotal PlaybookStep (fun a b => a.position ≤ b.position) :=
    ⟨fun a b => Nat.le_total a.position b.position⟩
  letI ht : IsTrans PlaybookStep (fun a b => a.position ≤ b.position) :=
    ⟨fun _ _ _ hab hbc => Nat.le_trans hab hbc⟩
  have hsorted₁ : (sortStepsByPosition S).Sorted (fun a b => a.position ≤ b.position) :=
    List.sorted_insertionSort _ S
  have hsorted₂ : (sortStepsByPosition T).Sorted (fun a b => a.position ≤ b.position) :=
    List.sorted_insertionSort _ T
  have hp : (sortStepsByPosition S).Perm (sortStepsByPosition T) :=
    ((List.perm_insertionSort _ S).trans hperm).trans (List.perm_insertionSort _ T).symm
  have hnd : ((sortStepsByPosition S).map (fun s => s.position)).Nodup :=
    (hnodup.perm ((List.perm_insertionSort _ S).map _).symm)
  have heq : sortStepsByPosition S = sortStepsByPosition T :=
    sorted_perm_eq_of_nodup_key (fun s => s.position) _ _ hp hsorted₁ hsorted₂ hnd
  unfold canonical_json
  rw [heq]

/-- First step of the C5 counterexample: position 1, description a. -/
def c5StepA : PlaybookStep :=
  { position := 1, action := "click", selector := some "#a", profile_key := none,
    value := none, description := "a", instructions := none,
    wait_after_ms := 500, optional := false }

/-- Second step of the C5 counterexample: the same position 1, description b. -/
def c5StepB : PlaybookStep :=
  { position := 1, action := "click", selector := some "#a", profile_key := none,
    value := none, description := "b", instructions := none,
    wait_after_ms := 500, optional := false }

/-- C5 counterexample: with two steps sharing position 1, swapping the input
order permutes the list yet changes the canonical JSON, because the stable
sort keeps equal positions in input order.  So the canonicalization is not
invariant under every permutation of every step list. -/
theorem canonical_json_not_perm_invariant :
    List.Perm [c5StepA, c5StepB] [c5StepB, c5StepA]
      ∧ canonical_json [c5StepA, c5StepB] ≠ canonical_json [c5StepB, c5StepA] :=
  ⟨List.Perm.swap c5StepB c5StepA [], by decide⟩

/-- Third step of the C5 development: distinct position 2. -/
def c5StepC : PlaybookStep :=
  { position := 2, action := "click", selector := some "#b", profile_key := none,
    value := none, description := "c", instructions := none,
    wait_after_ms := 500, optional := false }

/-- C5 witness: for two steps with distinct positions 1 and 2, swapping the
input order leaves the canonical JSON unchanged. -/
theorem canonical_json_perm_invariant_witness :
    canonical_json [c5StepC, c5StepA] = canonical_json [c5StepA, c5StepC] := by
  have hnd : (List.map (fun s : PlaybookStep => s.position)
      [c5StepA, c5StepC]).Nodup := by decide
  exact canonical_json_perm_invariant _ _
    (List.Perm.swap c5StepC c5StepA []) hnd

/-- C3: the claim says a step list accepted by validate_steps never contains
a navigate URL whose host is the IPv6 loopback [::1].  The code computes
host_no_port by splitting the host at the first colon, which truncates
"[::1]" to "[", so its own "[::1]" blocklist entry can never match and the
validator accepts http://[::1]/admin. -/
theorem validate_steps_accepts_ipv6_loopback :
    validate_steps [c3Ipv6Step] = .ok ()
      ∧ firstSegment '/' ("http://[::1]/admin".data.drop 7) = "[::1]".data := by
  exact ⟨rfl, by decide⟩

/-! ### Base64 (the STANDARD engine with padding used by crypto.rs and the
verifier)

The byte-level bit operations of the encoder are written with division and
remainder: for bytes below 256 these coincide with the shifts and masks of
the usual definition.  The decoder is strict: it rejects characters outside
the alphabet, a length that is not a multiple of four, padding that is not
final, and nonzero trailing bits, as the Rust engine does. -/

def b64Alphabet : List Char :=
  "ABCDEFGHIJKLMNOPQRSTUVWXYZabcdefghijklmnopqrstuvwxyz0123456789+/".data

def encodeSextet (v : Nat) : Char := b64Alphabet.getD v '='

def decodeSextet (c : Char) : Option Nat := b64Alphabet.findIdx? (fun a => a = c)

def base64EncodeList : List Nat → List Char
  | [] => []
  | [b1] => [encodeSextet (b1 / 4), encodeSextet (b1 % 4 * 16), '=', '=']
  | [b1, b2] =>
    [encodeSextet (b1 / 4), encodeSextet (b1 % 4 * 16 + b2 / 16),
     encodeSextet (b2 % 16 * 4), '=']
  | b1 :: b2 :: b3 :: rest =>
    encodeSextet (b1 / 4) :: encodeSextet (b1 % 4 * 16 + b2 / 16)
      :: encodeSextet (b2 % 16 * 4 + b3 / 64) :: encodeSextet (b3 % 64)
      :: base64EncodeList rest

def base64Encode (bs : List Nat) : String := String.mk (base64EncodeList bs)

def base64DecodeList : List Char → Option (List Nat)
  | [] => some []
  | c1 :: c2 :: c3 :: c4 :: rest =>
    match decodeSextet c1, decodeSextet c2 with
    | some v1, some v2 =>
      if c3 = '=' then
        if c4 = '=' ∧ rest = [] ∧ v2 % 16 = 0 then some [v1 * 4 + v2 / 16] else none
      else
        match decodeSextet c3 with
        | some v3 =>
          if c4 = '=' then
            if rest = [] ∧ v3 % 4 = 0 then
              some [v1 * 4 + v2 / 16, v2 % 16 * 16 + v3 / 4]
            else none
          else
            match decodeSextet c4 with
            | some v4 =>
              (base64DecodeList rest).map
                (fun bs => (v1 * 4 + v2 / 16) :: (v2 % 16 * 16 + v3 / 4)
                  :: (v3 % 4 * 64 + v4) :: bs)
            | none => none
        | none => none
    | _, _ => none
  | _ => none

def base64Decode (s : String) : Option (List Nat) := base64DecodeList s.data

theorem decodeSextet_encodeSextet : ∀ v < 64, decodeSextet (encodeSextet v) = some v := by
  decide

theorem encodeSextet_ne_pad : ∀ v < 64, encodeSextet v ≠ '=' := by decide

theorem base64_roundtrip :
    ∀ bs : List Nat, (∀ b ∈ bs, b < 256) →
      base64DecodeList (base64EncodeList bs) = some bs := by
  intro bs
  induction bs using base64EncodeList.induct with
  | case1 =>
    intro _
    rfl
  | case2 b1 =>
    intro h
    have hb1 : b1 < 256 := h b1 (by simp)
    have e1 := decodeSextet_encodeSextet (b1 / 4) (by omega)
    have e2 := decodeSextet_encodeSextet (b1 % 4 * 16) (by omega)
    have m0 : b1 % 4 * 16 % 16 = 0 := by omega
    have x1 : b1 / 4 * 4 + b1 % 4 * 16 / 16 = b1 := by omega
    simp [base64EncodeList, base64DecodeList, e1, e2, m0, x1]
    all_goals omega
  | case3 b1 b2 =>
    intro h
    have hb1 : b1 < 256 := h b1 (by simp)
    have hb2 : b2 < 256 := h b2 (by simp)
    have e1 := decodeSextet_encodeSextet (b1 / 4) (by omega)
    have e2 := decodeSextet_encodeSextet (b1 % 4 * 16 + b2 / 16) (by omega)
    have e3 := decodeSextet_encodeSextet (b2 % 16 * 4) (by omega)
    have ne3 : encodeSextet (b2 % 16 * 4) ≠ '=' := encodeSextet_ne_pad _ (by omega)
    have m0 : b2 % 16 * 4 % 4 = 0 := by omega
    have x1 : b1 / 4 * 4 + (b1 % 4 * 16 + b2 / 16) / 16 = b1 := by omega
    have x2 : (b1 % 4 * 16 + b2 / 16) % 16 * 16 + b2 % 16 * 4 / 4 = b2 := by omega
    simp [base64EncodeList, base64DecodeList, e1, e2, e3, ne3, m0, x1, x2]
    all_goals omega
  | case4 b1 b2 b3 rest ih =>
    intro h
    have hb1 : b1 < 256 := h b1 (by simp)
    have hb2 : b2 < 256 := h b2 (by simp)
    have hb3 : b3 < 256 := h b3 (by simp)
    have hrest : ∀ b ∈ rest, b < 256 := fun b hb => h b (by simp [hb])
    have e1 := decodeSextet_encodeSextet (b1 / 4) (by omega)
    have e2 := decodeSextet_encodeSextet (b1 % 4 * 16 + b2 / 16) (by omega)
    have e3 := decodeSextet_encodeSextet (b2 % 16 * 4 + b3 / 64) (by omega)
    have e4 := decodeSextet_encodeSextet (b3 % 64) (by omega)
    have ne3 : encodeSextet (b2 % 16 * 4 + b3 / 64) ≠ '=' :=
      encodeSextet_ne_pad _ (by omega)
    have ne4 : encodeSextet (b3 % 64) ≠ '=' := encodeSextet_ne_pad _ (by omega)
    have x1 : b1 / 4 * 4 + (b1 % 4 * 16 + b2 / 16) / 16 = b1 := by omega
    have x2 : (b1 % 4 * 16 + b2 / 16) % 16 * 16 + (b2 % 16 * 4 + b3 / 64) / 4 = b2 := by
      omega
    have x3 : (b2 % 16 * 4 + b3 / 64) % 4 * 64 + b3 % 64 = b3 := by omega
    simp [base64EncodeList, base64DecodeList, e1, e2, e3, e4, ne3, ne4,
      ih hrest, x1, x2, x3]

/-! ### Crypto envelope (crypto.rs)

AES-256-GCM itself is library code; it enters as a pair of cipher
parameters.  Everything crypto.rs adds around it (the 32-byte key check,
the nonce prepend, the base64 wrap, the length check on open) is concrete. -/

/-- crypto.rs CryptoError. -/
inductive CryptoError where
  | encryption (msg : String)
  | decryption (msg : String)
  | base64
deriving DecidableEq

/-- crypto.rs encrypt: base64(nonce12 plus-plus ciphertext_with_tag).  The
12 random nonce bytes are a parameter; aesEnc is the AES-256-GCM seal of
the aes_gcm crate. -/
def encrypt (aesEnc : List Nat → List Nat → List Nat → List Nat)
    (nonce plaintext key : List Nat) : Except CryptoError String :=
  if key.length ≠ 32 then .error (.encryption "invalid key length")
  else .ok (base64Encode (nonce ++ aesEnc key nonce plaintext))

/-- crypto.rs decrypt: base64-decode, reject blobs of at most 12 bytes,
split the nonce off, open with the cipher. -/
def decrypt (aesDec : List Nat → List Nat → List Nat → Option (List Nat))
    (encrypted_b64 : String) (key : List Nat) : Except CryptoError (List Nat) :=
  match base64Decode encrypted_b64 with
  | none => .error .base64
  | some combined =>
    if combined.length < 13 then .error (.decryption "Data too short")
    else if key.length ≠ 32 then .error (.decryption "invalid key length")
    else
      match aesDec key (combined.take 12) (combined.drop 12) with
      | some pt => .ok pt
      | none => .error (.decryption "aead decrypt failure")

/-- C8: for every plaintext and 32-byte key, opening a sealed envelope
returns the original plaintext, given the cipher contract of AES-256-GCM
(the seal has a 16-byte tag and the open inverts it); and decrypt fails on
malformed base64 and on decoded blobs of at most 12 bytes. -/
theorem encrypt_decrypt_roundtrip
    (aesEnc : List Nat → List Nat → List Nat → List Nat)
    (aesDec : List Nat → List Nat → List Nat → Option (List Nat))
    (nonce plaintext key : List Nat)
    (hkey : key.length = 32) (hnonce : nonce.length = 12)
    (hbytes : ∀ b ∈ nonce ++ aesEnc key nonce plaintext, b < 256)
    (hlen : (aesEnc key nonce plaintext).length = plaintext.length + 16)
    (hround : aesDec key nonce (aesEnc key nonce plaintext) = some plaintext) :
    encrypt aesEnc nonce plaintext key =
        .ok (base64Encode (nonce ++ aesEnc key nonce plaintext))
    ∧ decrypt aesDec (base64Encode (nonce ++ aesEnc key nonce plaintext)) key =
        .ok plaintext
    ∧ (∀ s : String, base64Decode s = none → decrypt aesDec s key = .error .base64)
    ∧ (∀ (s : String) (blob : List Nat), base64Decode s = some blob →
        blob.length ≤ 12 → decrypt aesDec s key = .error (.decryption "Data too short")) := by
  refine ⟨?_, ?_, ?_, ?_⟩
  · simp [encrypt, hkey]
  · have hdec : base64Decode (base64Encode (nonce ++ aesEnc key nonce plaintext)) =
        some (nonce ++ aesEnc key nonce plaintext) :=
      base64_roundtrip _ hbytes
    have h13 : ¬ ((nonce ++ aesEnc key nonce plaintext).length < 13) := by
      rw [List.length_append, hnonce, hlen]
      omega
    have htake : (nonce ++ aesEnc key nonce plaintext).take 12 = nonce := by
      rw [← hnonce]
      exact List.take_left nonce _
    have hdrop : (nonce ++ aesEnc key nonce plaintext).drop 12 =
        aesEnc key nonce plaintext := by
      rw [← hnonce]
      exact List.drop_left nonce _
    simp [decrypt, hdec, h13, hkey, htake, hdrop, hround]
    all_goals omega
  · intro s hs
    simp [decrypt, hs]
  · intro s blob hs hble
    have h13 : blob.length < 13 := by omega
    simp [decrypt, hs, h13]

/-- A toy cipher satisfying the AES-GCM contract at the witness point:
seal appends a 16-byte tag, open drops it. -/
def witnessSeal : List Nat → List Nat → List Nat → List Nat :=
  fun _ _ m => m ++ List.replicate 16 0

/-- The matching toy open operation. -/
def witnessOpen : List Nat → List Nat → List Nat → Option (List Nat) :=
  fun _ _ c => some (c.take (c.length - 16))

/-- C8 witness: sealing the two bytes of "hi" under an all-zero key and
nonce and opening the envelope returns them. -/
theorem encrypt_decrypt_roundtrip_witness :
    decrypt witnessOpen
        (base64Encode (List.replicate 12 0 ++
          witnessSeal (List.replicate 32 0) (List.replicate 12 0) [104, 105]))
        (List.replicate 32 0) = .ok [104, 105] :=
  (encrypt_decrypt_roundtrip witnessSeal witnessOpen (List.replicate 12 0) [104, 105]
    (List.replicate 32 0) (by decide) (by decide) (by decide) (by decide) (by decide)).2.1

/-! ### History store (history.rs)

The Rust code accumulates a HashMap from broker id to the retained record;
the embedding uses an association list with the same update rule.  The
HashMap iteration order is unspecified, so membership (not order) is the
modelled interface of get_latest_per_broker, which is all its callers use. -/

/-- One step of the latest-per-broker accumulation: insert the record if its
broker id is new, replace the held record when the new one is strictly
later. -/
def latestUpsert (m : List (String × SubmissionRecord)) (r : SubmissionRecord) :
    List (String × SubmissionRecord) :=
  match m with
  | [] => [(r.broker_id, r)]
  | (k, e) :: rest =>
    if k = r.broker_id then
      if e.submitted_at < r.submitted_at then (k, r) :: rest else (k, e) :: rest
    else (k, e) :: latestUpsert rest r

/-- history.rs get_latest_per_broker: group by broker id, keep the record
with maximal submitted_at (first such record on ties). -/
def get_latest_per_broker (records : List SubmissionRecord) : List SubmissionRecord :=
  (records.foldl latestUpsert []).map Prod.snd

/-- history.rs get_due_for_recheck: the latest-per-broker records whose
next_check_date is set and at most now. -/
def get_due_for_recheck (now : Int) (records : List SubmissionRecord) :
    List SubmissionRecord :=
  (get_latest_per_broker records).filter
    (fun r => (r.next_check_date.map (fun d => decide (d ≤ now))).getD false)

/-- The effect of one latestUpsert: either no entry with the record broker
id existed and the pair is appended, or the first such entry is replaced
when strictly older and everything is kept otherwise. -/
theorem latestUpsert_shape (acc : List (String × SubmissionRecord)) (r : SubmissionRecord) :
    ((∀ q ∈ acc, q.1 ≠ r.broker_id)
        ∧ latestUpsert acc r = acc ++ [(r.broker_id, r)])
    ∨ ∃ e pre post, acc = pre ++ (r.broker_id, e) :: post
        ∧ ((e.submitted_at < r.submitted_at
              ∧ latestUpsert acc r = pre ++ (r.broker_id, r) :: post)
          ∨ (¬ e.submitted_at < r.submitted_at ∧ latestUpsert acc r = acc)) := by
  induction acc with
  | nil => exact Or.inl ⟨by simp, rfl⟩
  | cons hd rest ih =>
    obtain ⟨k, ke⟩ := hd
    by_cases hk : k = r.broker_id
    · subst hk
      by_cases hlt : ke.submitted_at < r.submitted_at
      · exact Or.inr ⟨ke, [], rest, by simp, Or.inl ⟨hlt, by simp [latestUpsert, hlt]⟩⟩
      · exact Or.inr ⟨ke, [], rest, by simp, Or.inr ⟨hlt, by simp [latestUpsert, hlt]⟩⟩
    · rcases ih with ⟨hnone, heq⟩ | ⟨e, pre, post, hacc, hbr⟩
      · refine Or.inl ⟨?_, by simp [latestUpsert, hk, heq]⟩
        intro q hq
        rcases List.mem_cons.mp hq with hq1 | hq2
        · rw [hq1]
          exact hk
        · exact hnone q hq2
      · refine Or.inr ⟨e, (k, ke) :: pre, post, by rw [hacc, List.cons_append], ?_⟩
        rcases hbr with ⟨hlt, heq⟩ | ⟨hge, heq⟩
        · exact Or.inl ⟨hlt, by simp [latestUpsert, hk, heq]⟩
        · exact Or.inr ⟨hge, by simp [latestUpsert, hk, heq]⟩

/-- The invariant carried through the fold of get_latest_per_broker: every
held pair is keyed by its record broker id, holds a record already seen
that dominates (by submitted_at) every seen record of that broker, every
seen record has an entry for its broker, and the keys are distinct. -/
def LatestInv (seen : List SubmissionRecord) (acc : List (String × SubmissionRecord)) :
    Prop :=
  (∀ p ∈ acc, p.2.broker_id = p.1 ∧ p.2 ∈ seen
      ∧ ∀ r2 ∈ seen, r2.broker_id = p.1 → r2.submitted_at ≤ p.2.submitted_at)
  ∧ (∀ r2 ∈ seen, ∃ p, p ∈ acc ∧ p.1 = r2.broker_id)
  ∧ (acc.map Prod.fst).Nodup

/-- From distinct keys around a split entry: no other pair shares its key. -/
theorem keys_nodup_split (pre post : List (String × SubmissionRecord)) (k : String)
    (e : SubmissionRecord) (h : ((pre ++ (k, e) :: post).map Prod.fst).Nodup) :
    (∀ q ∈ pre, q.1 ≠ k) ∧ (∀ q ∈ post, q.1 ≠ k) := by
  rw [List.map_append, List.map_cons, List.nodup_append] at h
  obtain ⟨h1, h2, hdis⟩ := h
  constructor
  · intro q hq hqe
    exact hdis (List.mem_map_of_mem Prod.fst hq) (by simp [hqe])
  · intro q hq hqe
    exact (List.nodup_cons.mp h2).1 (by
      have := List.mem_map_of_mem Prod.fst hq
      rwa [hqe] at this)

theorem latestUpsert_inv (seen : List SubmissionRecord)
    (acc : List (String × SubmissionRecord)) (r : SubmissionRecord)
    (h : LatestInv seen acc) : LatestInv (seen ++ [r]) (latestUpsert acc r) := by
  obtain ⟨hent, hcov, hnd⟩ := h
  rcases latestUpsert_shape acc r with ⟨hnone, heq⟩ | ⟨e, pre, post, hacc, hbr⟩
  · -- no previous entry: the pair is appended
    rw [heq]
    refine ⟨?_, ?_, ?_⟩
    · intro p hp
      rcases List.mem_append.mp hp with hp1 | hp2
      · obtain ⟨h1, h2, h3⟩ := hent p hp1
        refine ⟨h1, List.mem_append_left _ h2, ?_⟩
        intro r2 hr2 hb
        rcases List.mem_append.mp hr2 with hr2s | hr2r
        · exact h3 r2 hr2s hb
        · have hr2eq : r2 = r := by simpa using hr2r
          subst hr2eq
          exact absurd hb.symm (hnone p hp1)
      · have hp' : p = (r.broker_id, r) := by simpa using hp2
        subst hp'
        refine ⟨rfl, List.mem_append_right _ (by simp), ?_⟩
        intro r2 hr2 hb
        rcases List.mem_append.mp hr2 with hr2s | hr2r
        · obtain ⟨p0, hp0, hp0k⟩ := hcov r2 hr2s
          exact absurd (hp0k.trans hb) (hnone p0 hp0)
        · have hr2eq : r2 = r := by simpa using hr2r
          subst hr2eq
          exact le_refl _
    · intro r2 hr2
      rcases List.mem_append.mp hr2 with hr2s | hr2r
      · obtain ⟨p0, hp0, hp0k⟩ := hcov r2 hr2s
        exact ⟨p0, List.mem_append_left _ hp0, hp0k⟩
      · have hr2eq : r2 = r := by simpa using hr2r
        exact ⟨(r.broker_id, r), List.mem_append_right _ (by simp), by rw [hr2eq]⟩
    · rw [List.map_append]
      refine List.Nodup.append hnd (by simp) ?_
      intro a ha hb
      obtain ⟨q, hq, hqa⟩ := List.mem_map.mp ha
      have hb' : a = r.broker_id := by simpa using hb
      exact hnone q hq (hqa.trans hb')
  · -- an entry for the broker existed
    have hnd' : ((pre ++ (r.broker_id, e) :: post).map Prod.fst).Nodup := hacc ▸ hnd
    obtain ⟨hnotpre, hnotpost⟩ := keys_nodup_split pre post r.broker_id e hnd'
    have hemem : (r.broker_id, e) ∈ acc := by
      rw [hacc]
      exact List.mem_append_right _ (List.mem_cons_self _ _)
    obtain ⟨heb, hes, hemax⟩ := hent (r.broker_id, e) hemem
    rcases hbr with ⟨hlt, heq⟩ | ⟨hge, heq⟩
    · -- the entry is replaced by r
      rw [heq]
      refine ⟨?_, ?_, ?_⟩
      · intro p hp
        rcases List.mem_append.mp hp with hp1 | hp2
        · have hpacc : p ∈ acc := by
            rw [hacc]
            exact List.mem_append_left _ hp1
          obtain ⟨h1, h2, h3⟩ := hent p hpacc
          refine ⟨h1, List.mem_append_left _ h2, ?_⟩
          intro r2 hr2 hb
          rcases List.mem_append.mp hr2 with hr2s | hr2r
          · exact h3 r2 hr2s hb
          · have hr2eq : r2 = r := by simpa using hr2r
            subst hr2eq
            exact absurd hb.symm (hnotpre p hp1)
        · rcases List.mem_cons.mp hp2 with hp3 | hp4
          · subst hp3
            refine ⟨rfl, List.mem_append_right _ (by simp), ?_⟩
            intro r2 hr2 hb
            rcases List.mem_append.mp hr2 with hr2s | hr2r
            · exact le_trans (hemax r2 hr2s hb) (le_of_lt hlt)
            · have hr2eq : r2 = r := by simpa using hr2r
              subst hr2eq
              exact le_refl _
          · have hpacc : p ∈ acc := by
              rw [hacc]
              exact List.mem_append_right _ (List.mem_cons_of_mem _ hp4)
            obtain ⟨h1, h2, h3⟩ := hent p hpacc
            refine ⟨h1, List.mem_append_left _ h2, ?_⟩
            intro r2 hr2 hb
            rcases List.mem_append.mp hr2 with hr2s | hr2r
            · exact h3 r2 hr2s hb
            · have hr2eq : r2 = r := by simpa using hr2r
              subst hr2eq
              exact absurd hb.symm (hnotpost p hp4)
      · intro r2 hr2
        rcases List.mem_append.mp hr2 with hr2s | hr2r
        · obtain ⟨p0, hp0, hp0k⟩ := hcov r2 hr2s
          have hp0acc := hp0
          rw [hacc] at hp0acc
          rcases List.mem_append.mp hp0acc with hp1 | hp2
          · exact ⟨p0, List.mem_append_left _ hp1, hp0k⟩
          · rcases List.mem_cons.mp hp2 with hp3 | hp4
            · refine ⟨(r.broker_id, r), List.mem_append_right _ (by simp), ?_⟩
              rw [← hp0k, hp3]
            · exact ⟨p0, List.mem_append_right _ (List.mem_cons_of_mem _ hp4), hp0k⟩
        · have hr2eq : r2 = r := by simpa using hr2r
          exact ⟨(r.broker_id, r), List.mem_append_right _ (by simp), by rw [hr2eq]⟩
      · have : (pre ++ (r.broker_id, r) :: post).map Prod.fst =
            (pre ++ (r.broker_id, e) :: post).map Prod.fst := by
          simp [List.map_append]
        rw [this]
        exact hnd'
    · -- the entry is kept unchanged
      rw [heq]
      refine ⟨?_, ?_, hnd⟩
      · intro p hp
        obtain ⟨h1, h2, h3⟩ := hent p hp
        refine ⟨h1, List.mem_append_left _ h2, ?_⟩
        intro r2 hr2 hb
        rcases List.mem_append.mp hr2 with hr2s | hr2r
        · exact h3 r2 hr2s hb
        · have hr2eq : r2 = r := by simpa using hr2r
          subst hr2eq
          -- p is in pre, the held entry, or post; only the entry can share the key
          have hpacc := hp
          rw [hacc] at hpacc
          rcases List.mem_append.mp hpacc with hp1 | hp2
          · exact absurd hb.symm (hnotpre p hp1)
          · rcases List.mem_cons.mp hp2 with hp3 | hp4
            · subst hp3
              exact le_of_not_lt hge
            · exact absurd hb.symm (hnotpost p hp4)
      · intro r2 hr2
        rcases List.mem_append.mp hr2 with hr2s | hr2r
        · obtain ⟨p0, hp0, hp0k⟩ := hcov r2 hr2s
          exact ⟨p0, hp0, hp0k⟩
        · have hr2eq : r2 = r := by simpa using hr2r
          exact ⟨(r.broker_id, e), hemem, by rw [hr2eq]⟩

theorem foldl_latestUpsert_inv :
    ∀ (records seen : List SubmissionRecord) (acc : List (String × SubmissionRecord)),
      LatestInv seen acc →
      LatestInv (seen ++ records) (records.foldl latestUpsert acc) := by
  intro records
  induction records with
  | nil =>
    intro seen acc h
    simpa using h
  | cons r rest ih =>
    intro seen acc h
    have h3 := ih (seen ++ [r]) (latestUpsert acc r) (latestUpsert_inv seen acc r h)
    simpa [List.append_assoc] using h3

/-- Every record returned by get_latest_per_broker is one of the input
records and has maximal submitted_at among the input records of its
broker. -/
theorem get_latest_per_broker_max (records : List SubmissionRecord)
    (r : SubmissionRecord) (hr : r ∈ get_latest_per_broker records) :
    r ∈ records ∧ ∀ r2 ∈ records, r2.broker_id = r.broker_id →
      r2.submitted_at ≤ r.submitted_at := by
  have hinv : LatestInv records (records.foldl latestUpsert []) := by
    have h0 : LatestInv [] [] := ⟨by simp, by simp, by simp⟩
    simpa using foldl_latestUpsert_inv records [] [] h0
  obtain ⟨p, hp, hpr⟩ := List.mem_map.mp hr
  obtain ⟨hkey, hmem, hmax⟩ := hinv.1 p hp
  subst hpr
  exact ⟨hmem, fun r2 h2 hb => hmax r2 h2 (hb.trans hkey)⟩

/-- C7: get_due_for_recheck returns exactly the records of
get_latest_per_broker whose next_check_date is set and at most now (both
directions of the membership equivalence); and every record of
get_latest_per_broker is an input record with maximal submitted_at among
the input records of its broker. -/
theorem get_due_for_recheck_spec (now : Int) (records : List SubmissionRecord)
    (r : SubmissionRecord) :
    (r ∈ get_due_for_recheck now records ↔
      (r ∈ get_latest_per_broker records
        ∧ ∃ d, r.next_check_date = some d ∧ d ≤ now))
    ∧ (r ∈ get_latest_per_broker records →
        r ∈ records ∧ ∀ r2 ∈ records, r2.broker_id = r.broker_id →
          r2.submitted_at ≤ r.submitted_at) := by
  constructor
  · unfold get_due_for_recheck
    rw [List.mem_filter]
    constructor
    · rintro ⟨hm, hp⟩
      refine ⟨hm, ?_⟩
      cases hd : r.next_check_date with
      | none => rw [hd] at hp; simp at hp
      | some d =>
        rw [hd] at hp
        simp at hp
        exact ⟨d, rfl, hp⟩
    · rintro ⟨hm, d, hd, hle⟩
      refine ⟨hm, ?_⟩
      simp [hd, hle]
  · exact get_latest_per_broker_max records r

/-- A due record for the C7 witness. -/
def c7Rec1 : SubmissionRecord :=
  { id := "r1", broker_id := "a", status := .submitted, submitted_at := 10,
    confirmed_at := none, next_check_date := some 5, error_message := none,
    run_id := "run" }

/-- An older record of the same broker. -/
def c7Rec2 : SubmissionRecord :=
  { id := "r2", broker_id := "a", status := .submitted, submitted_at := 3,
    confirmed_at := none, next_check_date := some 1, error_message := none,
    run_id := "run" }

/-- C7 witness: in a two-record history of one broker, the later record is
due at an instant past its next_check_date. -/
theorem get_due_for_recheck_spec_witness :
    c7Rec1 ∈ get_due_for_recheck 6 [c7Rec2, c7Rec1] :=
  (get_due_for_recheck_spec 6 [c7Rec2, c7Rec1] c7Rec1).1.mpr
    ⟨by decide, 5, rfl, by decide⟩

/-! ### Success and failure records (engine.rs)

engine.rs save_success_record reads the clock twice: once inside the
relist_days map when computing next_check_date (line 427) and once when
filling submitted_at (line 432).  The two reads are the parameters t_next
and t_submit, in that order. -/

/-- engine.rs save_success_record. -/
def save_success_record (t_next t_submit : Int) (new_id : String) (broker : Broker)
    (run_id : String) : SubmissionRecord :=
  { id := new_id
    broker_id := broker.id
    status := if broker.requires_verification.isSome then .pendingVerification else .submitted
    submitted_at := t_submit
    confirmed_at := none
    next_check_date := broker.relist_days.map (fun days => t_next + 86400 * (days : Int))
    error_message := none
    run_id := run_id }

/-- engine.rs save_failed_record. -/
def save_failed_record (t : Int) (new_id : String) (broker : Broker) (run_id : String)
    (error : String) : SubmissionRecord :=
  { id := new_id
    broker_id := broker.id
    status := .failed
    submitted_at := t
    confirmed_at := none
    next_check_date := none
    error_message := some error
    run_id := run_id }

/-- A broker with relist_days 30 and no verification requirement. -/
def c6Broker : Broker :=
  { id := "spokeo", name := "Spokeo",
    opt_out_url := "https://www.spokeo.com/optout",
    requires_verification := none, relist_days := some 30 }

/-- C6 counterexample: the claim says next_check_date minus submitted_at is
exactly d * 86400 seconds.  The code computes next_check_date from a clock
read taken before the submitted_at read; with the reads one second apart
(t_next 0, t_submit 1) the difference is 2591999, not 30 * 86400 = 2592000. -/
theorem save_success_record_clock_skew :
    (save_success_record 0 1 "rec" c6Broker "run").next_check_date = some 2592000
    ∧ (save_success_record 0 1 "rec" c6Broker "run").submitted_at = 1
    ∧ ¬ ((2592000 : Int) - 1 = 30 * 86400) := by
  refine ⟨rfl, rfl, by decide⟩

/-- C6 (amended): with relist_days d, next_check_date is the first clock
read plus exactly d * 86400 seconds and submitted_at is the second read, so
next_check_date minus submitted_at equals d * 86400 exactly when the two
reads coincide; with relist_days absent, next_check_date is absent. -/
theorem save_success_record_next_check (t_next t_submit : Int) (new_id : String)
    (b : Broker) (run_id : String) :
    (∀ d : Nat, b.relist_days = some d →
      (save_success_record t_next t_submit new_id b run_id).next_check_date =
          some (t_next + 86400 * (d : Int))
        ∧ (save_success_record t_next t_submit new_id b run_id).submitted_at = t_submit
        ∧ (t_next = t_submit →
            ∃ nc, (save_success_record t_next t_submit new_id b run_id).next_check_date =
                some nc
              ∧ nc - (save_success_record t_next t_submit new_id b run_id).submitted_at =
                (d : Int) * 86400))
    ∧ (b.relist_days = none →
        (save_success_record t_next t_submit new_id b run_id).next_check_date = none) := by
  constructor
  · intro d hd
    refine ⟨by simp [save_success_record, hd], rfl, ?_⟩
    intro heq
    refine ⟨t_next + 86400 * (d : Int), by simp [save_success_record, hd], ?_⟩
    simp only [save_success_record]
    rw [heq]
    ring
  · intro hd
    simp [save_success_record, hd]

/-- C6 witness: with both clock reads at 5 and relist_days 30, the recorded
next_check_date is 5 + 2592000 and its distance to submitted_at is exactly
30 days of seconds. -/
theorem save_success_record_next_check_witness :
    (save_success_record 5 5 "rec" c6Broker "run").next_check_date = some 2592005
    ∧ ∃ nc, (save_success_record 5 5 "rec" c6Broker "run").next_check_date = some nc
        ∧ nc - (save_success_record 5 5 "rec" c6Broker "run").submitted_at =
          (30 : Int) * 86400 := by
  have h := (save_success_record_next_check 5 5 "rec" c6Broker "run").1 30 rfl
  exact ⟨h.1.trans (by decide), h.2.2 rfl⟩

/-! ### Playbook verifier (playbook_verification.rs)

The Ed25519 verify_strict of the dalek crate is the parameter edVerify; the
embedded public key is baked into it.  Everything else — the missing
signature error, the base64 decode of the signature, the 64-byte check, the
canonical JSON — is concrete. -/

def verify_playbook_signature (edVerify : String → List Nat → Bool) (pb : Playbook) :
    Except String Unit :=
  match pb.signature with
  | none => .error "Community playbook is missing a signature"
  | some sig_b64 =>
    match base64Decode sig_b64 with
    | none => .error "Invalid signature encoding"
    | some sig_bytes =>
      if sig_bytes.length = 64 then
        if edVerify (canonical_json pb.steps) sig_bytes then .ok ()
        else .error "Playbook signature verification failed"
      else .error "Signature must be exactly 64 bytes"

/-! ### Step translation (engine.rs playbook_step_to_form_action) -/

def playbook_step_to_form_action (step : PlaybookStep) : Option FormAction :=
  match step.action with
  | "navigate" => some (.Navigate (step.value.getD ""))
  | "fill" =>
    match step.profile_key with
    | some _ => some (.Fill (step.selector.getD "") step.profile_key none none)
    | none => some (.ManualFill (step.selector.getD "") step.description)
  | "select" =>
    some (.Select (step.selector.getD "") (step.value.getD (step.profile_key.getD "")))
  | "check" => some (.Check (step.selector.getD "") (step.value != some "false"))
  | "click" => some (.Click (step.selector.getD ""))
  | "wait" => some (.Wait step.wait_after_ms)
  | "wait_for" => some (.WaitFor (step.selector.getD "") (some 10000))
  | "scroll_to" => some (.ScrollTo (step.selector.getD ""))
  | "find_and_click" =>
    some (.FindAndClick (step.selector.getD "") (step.profile_key.getD ""))
  | "captcha" => some (.Captcha (some step.description))
  | "user_prompt" => some (.UserPrompt step.description)
  | _ => none

/-! ### The per-broker loop body of engine.rs run_opt_outs

One iteration of the broker loop becomes a pure function from the broker,
the resolved playbook and an oracle (the cancellation channel, the page
open result, the Ed25519 verifier, the browser results per step index, the
clock reads and the generated record id) to an event trace plus the
iteration outcome.  Events record, in program order: the cancellation
break, the page open at the broker opt-out URL, the signature verdict, the
validation verdict, each step dispatch (a human wait or a browser call),
each translator skip, the submission record write and the page close. -/

inductive EngineEvent where
  | cancelled
  | pageOpenFailed
  | openPage (url : String)
  | verifySig (ok : Bool)
  | validate (ok : Bool)
  | skipStep (position : Nat)
  | dispatch (position : Nat)
  | recordFailed
  | recordSuccess
  | closePage
deriving DecidableEq

/-- Outcome of the step loop of one playbook: its events, the
playbook_failed flag with the captured failing position and error, and
whether the loop broke on the per-step cancellation check. -/
structure StepLoopResult where
  events : List EngineEvent
  failed : Bool
  failureStep : Option Nat
  failureError : Option String
  cancelled : Bool
deriving DecidableEq

/-- Captcha and UserPrompt suspend for the user and always resume; every
other dispatched action performs a browser call that can fail (for
ManualFill the fallible call is the highlight). -/
def isUserAwait : FormAction → Bool
  | .Captcha _ => true
  | .UserPrompt _ => true
  | _ => false

/-- The for-each-step loop of engine.rs run_opt_outs (lines 277 to 371):
check cancellation, translate (None skips), dispatch, and on a failed
non-optional browser call record position and error and break. -/
def stepLoop (steps : List PlaybookStep) (i : Nat) (cancelAtStep : Nat → Bool)
    (execErr : Nat → Option String) : StepLoopResult :=
  match steps with
  | [] => ⟨[], false, none, none, false⟩
  | s :: rest =>
    if cancelAtStep i then ⟨[], false, none, none, true⟩
    else
      match playbook_step_to_form_action s with
      | none =>
        let r := stepLoop rest (i + 1) cancelAtStep execErr
        ⟨.skipStep s.position :: r.events, r.failed, r.failureStep, r.failureError,
          r.cancelled⟩
      | some a =>
        if isUserAwait a then
          let r := stepLoop rest (i + 1) cancelAtStep execErr
          ⟨.dispatch s.position :: r.events, r.failed, r.failureStep, r.failureError,
            r.cancelled⟩
        else
          match execErr i with
          | none =>
            let r := stepLoop rest (i + 1) cancelAtStep execErr
            ⟨.dispatch s.position :: r.events, r.failed, r.failureStep, r.failureError,
              r.cancelled⟩
          | some e =>
            if s.optional then
              let r := stepLoop rest (i + 1) cancelAtStep execErr
              ⟨.dispatch s.position :: r.events, r.failed, r.failureStep, r.failureError,
                r.cancelled⟩
            else ⟨[.dispatch s.position], true, some s.position, some e, false⟩

/-- The oracle for one broker iteration: cancellation observations, page
open result, the Ed25519 verifier, per-step browser results, the clock
reads and the generated uuid. -/
structure BrokerOracle where
  cancelAtTop : Bool
  pageOpen : Except String Unit
  edVerify : String → List Nat → Bool
  cancelAtStep : Nat → Bool
  execErr : Nat → Option String
  tNextCheck : Int
  tSubmit : Int
  tFail : Int
  newId : String

/-- Outcome of one broker iteration: the event trace, the increments of the
succeeded and failed counters, the submission record written, and whether
the loop broke out (cancellation at the top) instead of continuing. -/
structure IterResult where
  events : List EngineEvent
  succeededDelta : Nat
  failedDelta : Nat
  record : Option SubmissionRecord
  brokeOut : Bool
deriving DecidableEq

/-- The tail of a broker iteration from the validation call on (engine.rs
lines 260 to 405): validate, run the step loop, record success or failure,
close the page. -/
def runValidateAndSteps (b : Broker) (pb : Playbook) (run_id : String) (o : BrokerOracle)
    (pre : List EngineEvent) : IterResult :=
  match validate_steps pb.steps with
  | .error e =>
    ⟨pre ++ [.validate false, .recordFailed, .closePage], 0, 1,
      some (save_failed_record o.tFail o.newId b run_id ("Playbook rejected: " ++ e)),
      false⟩
  | .ok _ =>
    let r := stepLoop pb.steps 0 o.cancelAtStep o.execErr
    if r.failed then
      ⟨pre ++ [.validate true] ++ r.events ++ [.recordFailed, .closePage], 0, 1,
        some (save_failed_record o.tFail o.newId b run_id
          (r.failureError.getD "Playbook execution failed")), false⟩
    else
      ⟨pre ++ [.validate true] ++ r.events ++ [.recordSuccess, .closePage], 1, 0,
        some (save_success_record o.tNextCheck o.tSubmit o.newId b run_id), false⟩

/-- One iteration of the broker loop of engine.rs run_opt_outs (lines 166
to 406), for a broker whose playbook selection resolved to the given
playbook (None when resolution failed). -/
def brokerIteration (b : Broker) (playbook : Option Playbook) (run_id : String)
    (o : BrokerOracle) : IterResult :=
  if o.cancelAtTop then ⟨[.cancelled], 0, 0, none, true⟩
  else
    match o.pageOpen with
    | .error e =>
      ⟨[.pageOpenFailed, .recordFailed], 0, 1,
        some (save_failed_record o.tFail o.newId b run_id ("Failed to open page: " ++ e)),
        false⟩
    | .ok _ =>
      match playbook with
      | none =>
        ⟨[.openPage b.opt_out_url, .recordFailed, .closePage], 0, 1,
          some (save_failed_record o.tFail o.newId b run_id
            "No playbook available for this broker"), false⟩
      | some pb =>
        if pb.status = "local" then
          runValidateAndSteps b pb run_id o [.openPage b.opt_out_url]
        else
          match verify_playbook_signature o.edVerify pb with
          | .error e =>
            ⟨[.openPage b.opt_out_url, .verifySig false, .recordFailed, .closePage], 0, 1,
              some (save_failed_record o.tFail o.newId b run_id
                ("Playbook rejected: " ++ e)), false⟩
          | .ok _ =>
            runValidateAndSteps b pb run_id o
              [.openPage b.opt_out_url, .verifySig true]

/-- When the step loop breaks on the per-step cancellation check, it has
recorded no failure: every exit through the cancellation branch leaves
playbook_failed false and no captured error. -/
theorem stepLoop_cancelled_not_failed (c : Nat → Bool) (ex : Nat → Option String) :
    ∀ (steps : List PlaybookStep) (i : Nat),
      (stepLoop steps i c ex).cancelled = true →
      (stepLoop steps i c ex).failed = false
        ∧ (stepLoop steps i c ex).failureError = none := by
  intro steps
  induction steps with
  | nil =>
    intro i h
    simp [stepLoop] at h
  | cons s rest ih =>
    intro i h
    by_cases hc : c i = true
    · simp [stepLoop, hc]
    · rw [Bool.not_eq_true] at hc
      cases ht : playbook_step_to_form_action s with
      | none =>
        simp [stepLoop, hc, ht] at h ⊢
        exact ih (i + 1) h
      | some a =>
        by_cases ha : isUserAwait a = true
        · simp [stepLoop, hc, ht, ha] at h ⊢
          exact ih (i + 1) h
        · rw [Bool.not_eq_true] at ha
          cases he : ex i with
          | none =>
            simp [stepLoop, hc, ht, ha, he] at h ⊢
            exact ih (i + 1) h
          | some err =>
            by_cases hopt : s.optional = true
            · simp [stepLoop, hc, ht, ha, he, hopt] at h ⊢
              exact ih (i + 1) h
            · rw [Bool.not_eq_true] at hopt
              simp [stepLoop, hc, ht, ha, he, hopt] at h

/-! ### C1: signature verification precedes every step dispatch -/

/-- C1: in a broker iteration for a non-local playbook, (a) whenever any
step is dispatched the trace begins with the page open and a successful
signature verification, so the verification verdict precedes every
dispatch; and (b) when verification fails, the iteration records a failed
submission, dispatches no step, and continues to the next broker. -/
theorem broker_iteration_verifies_before_dispatch
    (b : Broker) (pb : Playbook) (run_id : String) (o : BrokerOracle)
    (hst : pb.status ≠ "local") (hc : o.cancelAtTop = false)
    (hp : o.pageOpen = .ok ()) :
    ((∃ p, EngineEvent.dispatch p ∈ (brokerIteration b (some pb) run_id o).events) →
      ∃ tail, (brokerIteration b (some pb) run_id o).events =
        EngineEvent.openPage b.opt_out_url :: EngineEvent.verifySig true :: tail)
    ∧ (∀ e, verify_playbook_signature o.edVerify pb = .error e →
        (brokerIteration b (some pb) run_id o).events =
            [EngineEvent.openPage b.opt_out_url, EngineEvent.verifySig false,
              EngineEvent.recordFailed, EngineEvent.closePage]
          ∧ (∀ p, EngineEvent.dispatch p ∉ (brokerIteration b (some pb) run_id o).events)
          ∧ (brokerIteration b (some pb) run_id o).failedDelta = 1
          ∧ (brokerIteration b (some pb) run_id o).succeededDelta = 0
          ∧ (brokerIteration b (some pb) run_id o).brokeOut = false
          ∧ ∃ r, (brokerIteration b (some pb) run_id o).record = some r
              ∧ r.status = .failed) := by
  constructor
  · rintro ⟨p, hmem⟩
    cases hv : verify_playbook_signature o.edVerify pb with
    | error e =>
      simp [brokerIteration, hc, hp, hst, hv] at hmem
    | ok u =>
      simp only [brokerIteration, hc, hp] at hmem ⊢
      simp only [if_neg hst, hv] at hmem ⊢
      cases hval : validate_steps pb.steps with
      | error e =>
        simp [runValidateAndSteps, hval] at hmem
      | ok v =>
        simp only [runValidateAndSteps, hval] at hmem ⊢
        by_cases hf : (stepLoop pb.steps 0 o.cancelAtStep o.execErr).failed = true
        · simp [hf] at hmem ⊢
        · rw [Bool.not_eq_true] at hf
          simp [hf] at hmem ⊢
  · intro e hv
    simp only [brokerIteration, hc, hp]
    simp only [if_neg hst, hv]
    refine ⟨by simp, ?_, by simp, by simp, by simp, ⟨_, rfl, rfl⟩⟩
    intro p
    simp

/-- The C1 witness broker. -/
def c1Broker : Broker :=
  { id := "acme-data", name := "Acme Data",
    opt_out_url := "https://acme-data.example/optout",
    requires_verification := none, relist_days := none }

/-- The C1 witness playbook: community status, no signature. -/
def c1Playbook : Playbook :=
  { id := "pb1", broker_id := "acme-data", broker_name := "Acme Data",
    version := 1, status := "approved", steps := [c5StepA], signature := none }

/-- An oracle with no cancellation, a successful page open, a rejecting
verifier and error-free browser calls. -/
def c1Oracle : BrokerOracle :=
  { cancelAtTop := false, pageOpen := .ok (), edVerify := fun _ _ => false,
    cancelAtStep := fun _ => false, execErr := fun _ => none,
    tNextCheck := 0, tSubmit := 0, tFail := 0, newId := "rec1" }

/-- C1 witness: for the unsigned community playbook the iteration emits
exactly the open, failed-verification, failed-record and close events — no
step dispatch. -/
theorem broker_iteration_verifies_before_dispatch_witness :
    (brokerIteration c1Broker (some c1Playbook) "run" c1Oracle).events =
      [EngineEvent.openPage "https://acme-data.example/optout",
        EngineEvent.verifySig false, EngineEvent.recordFailed, EngineEvent.closePage] :=
  ((broker_iteration_verifies_before_dispatch c1Broker c1Playbook "run" c1Oracle
    (by decide) rfl rfl).2 "Community playbook is missing a signature" rfl).1

/-! ### C2: validation halts the playbook before any step dispatch -/

/-- C2 (amended): when validate_steps rejects the step list (and the
iteration was not already broken by cancellation at the top), no playbook
step is dispatched, a failed submission is recorded, and the loop continues
to the next broker.  The initial page open at the broker opt-out URL is not
prevented: it happens before playbook resolution and validation (see the
counterexample). -/
theorem broker_iteration_validate_halts
    (b : Broker) (pb : Playbook) (run_id : String) (o : BrokerOracle) (e : String)
    (hc : o.cancelAtTop = false)
    (hval : validate_steps pb.steps = .error e) :
    (∀ p, EngineEvent.dispatch p ∉ (brokerIteration b (some pb) run_id o).events)
    ∧ EngineEvent.recordFailed ∈ (brokerIteration b (some pb) run_id o).events
    ∧ (brokerIteration b (some pb) run_id o).failedDelta = 1
    ∧ (brokerIteration b (some pb) run_id o).succeededDelta = 0
    ∧ (brokerIteration b (some pb) run_id o).brokeOut = false
    ∧ ∃ r, (brokerIteration b (some pb) run_id o).record = some r
        ∧ r.status = .failed := by
  cases hpo : o.pageOpen with
  | error eo =>
    simp only [brokerIteration, hc, hpo]
    refine ⟨?_, by simp, by simp, by simp, by simp, ⟨_, rfl, rfl⟩⟩
    intro p
    simp
  | ok u =>
    by_cases hst : pb.status = "local"
    · simp only [brokerIteration, hc, hpo, if_pos hst, runValidateAndSteps, hval]
      refine ⟨?_, by simp, by simp, by simp, by simp, ⟨_, rfl, rfl⟩⟩
      intro p
      simp
    · cases hv : verify_playbook_signature o.edVerify pb with
      | error e2 =>
        simp only [brokerIteration, hc, hpo, if_neg hst, hv]
        refine ⟨?_, by simp, by simp, by simp, by simp, ⟨_, rfl, rfl⟩⟩
        intro p
        simp
      | ok u2 =>
        simp only [brokerIteration, hc, hpo, if_neg hst, hv, runValidateAndSteps, hval]
        refine ⟨?_, by simp, by simp, by simp, by simp, ⟨_, rfl, rfl⟩⟩
        intro p
        simp

/-- The C2 broker. -/
def c2Broker : Broker :=
  { id := "b1", name := "B", opt_out_url := "https://example.com/optout",
    requires_verification := none, relist_days := none }

/-- A step whose action is outside the allowlist. -/
def c2BadStep : PlaybookStep :=
  { position := 1, action := "unknown_action", selector := none, profile_key := none,
    value := none, description := "x", instructions := none,
    wait_after_ms := 0, optional := false }

/-- A local playbook holding only the invalid step. -/
def c2Playbook : Playbook :=
  { id := "p", broker_id := "b1", broker_name := "B", version := 0,
    status := "local", steps := [c2BadStep], signature := none }

/-- The C2 oracle: no cancellation, page opens, browser calls never fail. -/
def c2Oracle : BrokerOracle :=
  { cancelAtTop := false, pageOpen := .ok (), edVerify := fun _ _ => true,
    cancelAtStep := fun _ => false, execErr := fun _ => none,
    tNextCheck := 0, tSubmit := 0, tFail := 0, newId := "rec2" }

/-- C2 counterexample: the claim says that when validation fails no page
navigation occurs for that broker before the validation verdict.  In the
trace of this failing-validation iteration the very first event is the page
open at the broker opt-out URL — engine.rs opens the page (line 176) before
the playbook is even resolved, let alone validated. -/
theorem broker_iteration_navigates_before_validation :
    validate_steps c2Playbook.steps = .error "Unknown action."
    ∧ (brokerIteration c2Broker (some c2Playbook) "run" c2Oracle).events =
        [EngineEvent.openPage "https://example.com/optout", EngineEvent.validate false,
          EngineEvent.recordFailed, EngineEvent.closePage] :=
  ⟨rfl, rfl⟩

/-- C2 witness: the amended halting property at the concrete
failing-validation iteration. -/
theorem broker_iteration_validate_halts_witness :
    (∀ p, EngineEvent.dispatch p ∉ (brokerIteration c2Broker (some c2Playbook) "run" c2Oracle).events)
    ∧ EngineEvent.recordFailed ∈ (brokerIteration c2Broker (some c2Playbook) "run" c2Oracle).events
    ∧ (brokerIteration c2Broker (some c2Playbook) "run" c2Oracle).failedDelta = 1 := by
  have h := broker_iteration_validate_halts c2Broker c2Playbook "run" c2Oracle
    "Unknown action." rfl rfl
  exact ⟨h.1, h.2.1, h.2.2.1⟩

/-! ### C9: cancellation observed inside the step loop yields a success
record -/

/-- C9: when a run reaches the step loop of a playbook (page opened,
signature accepted or local, steps validated) and the per-step cancellation
check is the first to observe cancellation, the loop exits with no recorded
failure and the iteration records a success submission — status submitted
or pending_verification, no error message — and increments the succeeded
counter, not the failed one. -/
theorem broker_iteration_cancel_mid_playbook
    (b : Broker) (pb : Playbook) (run_id : String) (o : BrokerOracle)
    (hc : o.cancelAtTop = false) (hp : o.pageOpen = .ok ())
    (hv : pb.status = "local" ∨ verify_playbook_signature o.edVerify pb = .ok ())
    (hval : validate_steps pb.steps = .ok ())
    (hcan : (stepLoop pb.steps 0 o.cancelAtStep o.execErr).cancelled = true) :
    (stepLoop pb.steps 0 o.cancelAtStep o.execErr).failed = false
    ∧ (brokerIteration b (some pb) run_id o).succeededDelta = 1
    ∧ (brokerIteration b (some pb) run_id o).failedDelta = 0
    ∧ EngineEvent.recordSuccess ∈ (brokerIteration b (some pb) run_id o).events
    ∧ ∃ r, (brokerIteration b (some pb) run_id o).record = some r
        ∧ (r.status = .submitted ∨ r.status = .pendingVerification)
        ∧ r.error_message = none := by
  have hnf := stepLoop_cancelled_not_failed o.cancelAtStep o.execErr pb.steps 0 hcan
  have hrun : ∀ pre : List EngineEvent,
      runValidateAndSteps b pb run_id o pre =
        ⟨pre ++ [.validate true]
            ++ (stepLoop pb.steps 0 o.cancelAtStep o.execErr).events
            ++ [.recordSuccess, .closePage], 1, 0,
          some (save_success_record o.tNextCheck o.tSubmit o.newId b run_id), false⟩ := by
    intro pre
    simp [runValidateAndSteps, hval, hnf.1]
  have hstatus : (save_success_record o.tNextCheck o.tSubmit o.newId b run_id).status =
        BrokerSubmissionStatus.submitted
      ∨ (save_success_record o.tNextCheck o.tSubmit o.newId b run_id).status =
        BrokerSubmissionStatus.pendingVerification := by
    cases hb : b.requires_verification with
    | none => exact Or.inl (by simp [save_success_record, hb])
    | some s => exact Or.inr (by simp [save_success_record, hb])
  rcases hv with hl | hok
  · have hred : brokerIteration b (some pb) run_id o =
        runValidateAndSteps b pb run_id o [.openPage b.opt_out_url] := by
      simp [brokerIteration, hc, hp, hl]
    rw [hred, hrun]
    refine ⟨hnf.1, rfl, rfl, by simp, ⟨_, rfl, hstatus, rfl⟩⟩
  · by_cases hst : pb.status = "local"
    · have hred : brokerIteration b (some pb) run_id o =
          runValidateAndSteps b pb run_id o [.openPage b.opt_out_url] := by
        simp [brokerIteration, hc, hp, hst]
      rw [hred, hrun]
      refine ⟨hnf.1, rfl, rfl, by simp, ⟨_, rfl, hstatus, rfl⟩⟩
    · have hred : brokerIteration b (some pb) run_id o =
          runValidateAndSteps b pb run_id o
            [.openPage b.opt_out_url, .verifySig true] := by
        simp [brokerIteration, hc, hp, hst, hok]
      rw [hred, hrun]
      refine ⟨hnf.1, rfl, rfl, by simp, ⟨_, rfl, hstatus, rfl⟩⟩

/-- The C9 broker: no verification requirement, so a success records status
submitted. -/
def c9Broker : Broker :=
  { id := "b9", name := "B9", opt_out_url := "https://b9.example/optout",
    requires_verification := none, relist_days := some 7 }

/-- The C9 playbook: local, one valid click step. -/
def c9Playbook : Playbook :=
  { id := "p9", broker_id := "b9", broker_name := "B9", version := 0,
    status := "local", steps := [c5StepA], signature := none }

/-- The C9 oracle: cancellation arrives at the first per-step check. -/
def c9Oracle : BrokerOracle :=
  { cancelAtTop := false, pageOpen := .ok (), edVerify := fun _ _ => true,
    cancelAtStep := fun i => i == 0, execErr := fun _ => none,
    tNextCheck := 0, tSubmit := 0, tFail := 0, newId := "rec9" }

/-- C9 witness: with cancellation first observed at step index 0, the
iteration still increments succeeded and records a non-failed submission. -/
theorem broker_iteration_cancel_mid_playbook_witness :
    (brokerIteration c9Broker (some c9Playbook) "run" c9Oracle).succeededDelta = 1
    ∧ (brokerIteration c9Broker (some c9Playbook) "run" c9Oracle).failedDelta = 0
    ∧ ∃ r, (brokerIteration c9Broker (some c9Playbook) "run" c9Oracle).record = some r
        ∧ (r.status = .submitted ∨ r.status = .pendingVerification)
        ∧ r.error_message = none := by
  have h := broker_iteration_cancel_mid_playbook c9Broker c9Playbook "run" c9Oracle
    rfl rfl (Or.inl rfl) rfl rfl
  exact ⟨h.2.1, h.2.2.1, h.2.2.2.2⟩
